import Mathlib

/-!
Shallow embedding of the Follower_management_API repository
(src/app/views.py, src/app/serializers.py, src/app/urls.py).

The repository's `models.py` is not part of the sources; where its
behaviour matters (the symmetric `friends` many-to-many relation, the
`pending` default of `FriendRequest.status`, case-insensitive unique
emails) the definitions are modelled from the spec and say so in their
doc comments.  Everything else is translated directly from the Python
source.
-/

namespace FollowerAPI

/-- Status of a friend request: the string field `status` of the
`FriendRequest` model, written `'pending'`, `'accepted'`, `'rejected'`
in views.py. -/
inductive RStatus where
  | pending
  | accepted
  | rejected
deriving DecidableEq, Repr

/-- A `FriendRequest` record: id, from_user, to_user, status
(`created_at` is an immutable timestamp never read by the workflow and
is omitted). -/
structure FriendRequest where
  id : Nat
  from_user : Nat
  to_user : Nat
  status : RStatus
deriving DecidableEq, Repr

/-- A `User` record: id, email, name (password hash is never read by
the workflow under verification and is omitted).  Strings are lists of
characters.  Modelled from the spec: `name` is a total string (the
spec's data model lists `name` as a plain string field). -/
structure User where
  id : Nat
  email : List Char
  name : List Char
deriving DecidableEq, Repr

/-- The persistent store: user records, the friends relation as a list
of directed edges, friend-request records, and the next fresh primary
keys.  List order is the store's natural (insertion / primary-key)
order, which is what Django's `.first()` observes. -/
structure AppState where
  users : List User
  friends : List (Nat × Nat)
  requests : List FriendRequest
  nextUserId : Nat
  nextReqId : Nat
deriving DecidableEq, Repr

/-- The empty store. -/
def initState : AppState :=
  { users := [], friends := [], requests := [], nextUserId := 0, nextReqId := 0 }

/-- `b` is a member of `a`'s friends relation (the membership that
`FriendListView.get_queryset`, `User.objects.filter(friends=...)`,
observes). -/
def isFriend (s : AppState) (a b : Nat) : Bool :=
  s.friends.contains (a, b)

/-- Modelled from the spec: `models.py` is missing; `User.friends` is a
symmetric many-to-many relation, so `request.user.friends.add(x)`
(views.py line 124) establishes the edge in both directions
("the design adds the reverse edge implicitly via a symmetric
relation"). -/
def friendsAdd (fr : List (Nat × Nat)) (a b : Nat) : List (Nat × Nat) :=
  fr ++ [(a, b), (b, a)]

/-- The lookup shared by `FriendRequestAcceptView.post` (views.py line
121) and `FriendRequestRejectView.post` (line 146):
`FriendRequest.objects.filter(from_user_id=user_id, to_user=request.user,
status='pending')`. -/
def matchesPending (other acting : Nat) (r : FriendRequest) : Bool :=
  r.from_user == other && r.to_user == acting && r.status == .pending

/-- `....filter(from_user_id=user_id, to_user=request.user,
status='pending').first()`: the first matching record in store order,
or none. -/
def findPending (reqs : List FriendRequest) (other acting : Nat) :
    Option FriendRequest :=
  (reqs.filter (matchesPending other acting)).head?

/-- `friend_request.status = st; friend_request.save()`: persist a new
status on the record with the given primary key. -/
def setStatus (reqs : List FriendRequest) (i : Nat) (st : RStatus) :
    List FriendRequest :=
  reqs.map (fun r => if r.id == i then { r with status := st } else r)

/-- Result of a workflow call: the serialized record on success, or the
`{'error': ...}` 400 response. -/
inductive ApiResult where
  | ok (r : FriendRequest)
  | error
deriving DecidableEq, Repr

/-- `FriendRequestAcceptView.post` (views.py lines 119-128): look up
the first pending request from `otherId` addressed to `acting`; if
found, set its status to accepted, save, and add the friendship edge
`request.user.friends.add(friend_request.from_user)`; otherwise return
the error response and leave the store untouched. -/
def accept (s : AppState) (acting otherId : Nat) : ApiResult × AppState :=
  match findPending s.requests otherId acting with
  | some fr =>
      (.ok { fr with status := .accepted },
       { s with requests := setStatus s.requests fr.id .accepted,
                friends := friendsAdd s.friends acting fr.from_user })
  | none => (.error, s)

/-- `FriendRequestRejectView.post` (views.py lines 144-152): same
lookup as accept; on success set status to rejected and save; no
relation mutation; otherwise error and no change. -/
def reject (s : AppState) (acting otherId : Nat) : ApiResult × AppState :=
  match findPending s.requests otherId acting with
  | some fr =>
      (.ok { fr with status := .rejected },
       { s with requests := setStatus s.requests fr.id .rejected })
  | none => (.error, s)

/-- The client-supplied body of a send-friend-request call.
`FriendRequestSerializer` declares `from_user` and `status` read-only
(serializers.py lines 18-20), so clients may supply them but they never
reach `validated_data`. -/
structure SendInput where
  supplied_from : Option Nat
  to_user : Nat
  supplied_status : Option RStatus
deriving DecidableEq, Repr

/-- `FriendRequestSerializer` validation: `to_user` is a
`PrimaryKeyRelatedField(queryset=User.objects.all())`, so validation
fails unless the target user exists; the read-only `from_user` and
`status` inputs are dropped. -/
def validateSend (s : AppState) (inp : SendInput) : Option Nat :=
  if s.users.any (fun u => u.id == inp.to_user) then some inp.to_user else none

/-- `FriendRequestCreateView` (views.py lines 90-103): validate the
body, then `serializer.save(from_user=self.request.user)`.  Modelled
from the spec where `models.py` is missing: the new record's status is
the model default `pending` ("created when a user sends a friend
request (status=pending)"). -/
def send (s : AppState) (acting : Nat) (inp : SendInput) :
    ApiResult × AppState :=
  match validateSend s inp with
  | some t =>
      let fr : FriendRequest :=
        { id := s.nextReqId, from_user := acting, to_user := t,
          status := .pending }
      (.ok fr, { s with requests := s.requests ++ [fr],
                        nextReqId := s.nextReqId + 1 })
  | none => (.error, s)

/-- Lower-casing of a string, for Django's case-insensitive `__iexact`
and `__icontains` lookups. -/
def lowerStr (cs : List Char) : List Char :=
  cs.map Char.toLower

/-- `RegisterView.post` via `UserSerializer.create`.  Modelled from the
spec where `models.py`'s `create_user` is missing: registration fails
(and changes nothing) if the email is already registered
(case-insensitively unique); otherwise a fresh user record is stored.
Registration never touches the friends relation or the requests. -/
def register (s : AppState) (email nm : List Char) : AppState :=
  if s.users.any (fun u => lowerStr u.email == lowerStr email) then s
  else
    { s with
        users := s.users ++ [{ id := s.nextUserId, email := email, name := nm }],
        nextUserId := s.nextUserId + 1 }

/-- `UserSearchView.get_queryset` (views.py lines 66-85):
`User.objects.filter(Q(email__iexact=q) | Q(name__icontains=q))
.exclude(id=self.request.user.id)`. -/
def search (s : AppState) (q : List Char) (actingId : Nat) : List User :=
  (s.users.filter (fun u =>
      lowerStr u.email == lowerStr q
        || decide (lowerStr q <:+: lowerStr u.name))).filter
    (fun u => !(u.id == actingId))

/-- One externally triggerable state-mutating operation. -/
inductive Op where
  | register (email nm : List Char)
  | send (acting : Nat) (inp : SendInput)
  | accept (acting other : Nat)
  | reject (acting other : Nat)
deriving DecidableEq, Repr

/-- Apply one operation to the store (discarding the response). -/
def applyOp (s : AppState) : Op → AppState
  | .register e n => register s e n
  | .send a i => (send s a i).2
  | .accept a o => (accept s a o).2
  | .reject a o => (reject s a o).2

/-- Run a sequence of operations from a state. -/
def runOps (s : AppState) (ops : List Op) : AppState :=
  ops.foldl applyOp s

/-- `true` unless the operation is a user sending a friend request to
themself. -/
def notSelfSend : Op → Bool
  | .send a i => !(a == i.to_user)
  | _ => true

/-- A concrete store with two users and one pending request from user 0
to user 1, used to instantiate the theorems below. -/
def demoState : AppState :=
  { users := [⟨0, ['a'], ['a']⟩, ⟨1, ['b'], ['b']⟩],
    friends := [],
    requests := [⟨0, 0, 1, .pending⟩],
    nextUserId := 2, nextReqId := 1 }

/-- A concrete store whose only request has already been accepted. -/
def demoStateAccepted : AppState :=
  { users := [⟨0, ['a'], ['a']⟩, ⟨1, ['b'], ['b']⟩],
    friends := [(1, 0), (0, 1)],
    requests := [⟨0, 0, 1, .accepted⟩],
    nextUserId := 2, nextReqId := 1 }

/-- A concrete store holding two pending requests from user 0 to
user 1 (duplicates are not prevented at creation). -/
def demoStateDup : AppState :=
  { users := [⟨0, ['a'], ['a']⟩, ⟨1, ['b'], ['b']⟩],
    friends := [],
    requests := [⟨0, 0, 1, .pending⟩, ⟨1, 0, 1, .pending⟩],
    nextUserId := 2, nextReqId := 2 }

/-- A concrete store for the search examples: user 0 has email "x" and
name "A", user 1 (the requester) has email "b" and name "b". -/
def cexSearchState : AppState :=
  { users := [⟨0, ['x'], ['A']⟩, ⟨1, ['b'], ['b']⟩],
    friends := [], requests := [], nextUserId := 2, nextReqId := 0 }

/-! ### Helper lemmas about the store primitives -/

theorem matchesPending_iff {o a : Nat} {r : FriendRequest} :
    matchesPending o a r = true ↔
      r.from_user = o ∧ r.to_user = a ∧ r.status = .pending := by
  simp [matchesPending, and_assoc]

theorem findPending_none {reqs : List FriendRequest} {o a : Nat} :
    findPending reqs o a = none ↔
      ∀ r ∈ reqs, matchesPending o a r = false := by
  simp [findPending, List.head?_eq_none_iff, List.filter_eq_nil_iff]

theorem findPending_some {reqs : List FriendRequest} {o a : Nat}
    {fr : FriendRequest} (h : findPending reqs o a = some fr) :
    fr ∈ reqs ∧ matchesPending o a fr = true := by
  simp only [findPending] at h
  obtain ⟨ys, hys⟩ := List.head?_eq_some_iff.mp h
  have hmem : fr ∈ reqs.filter (matchesPending o a) := by
    rw [hys]; exact List.mem_cons_self _ _
  exact List.mem_filter.mp hmem

theorem findPending_isSome_of_mem {reqs : List FriendRequest} {o a : Nat}
    {r : FriendRequest} (hr : r ∈ reqs) (hm : matchesPending o a r = true) :
    ∃ fr, findPending reqs o a = some fr := by
  have hmem : r ∈ reqs.filter (matchesPending o a) :=
    List.mem_filter.mpr ⟨hr, hm⟩
  cases hfp : (reqs.filter (matchesPending o a)).head? with
  | none =>
      rw [List.head?_eq_none_iff] at hfp
      rw [hfp] at hmem
      cases hmem
  | some fr => exact ⟨fr, by simp [findPending, hfp]⟩

theorem mem_setStatus_of_ne {reqs : List FriendRequest} {r : FriendRequest}
    {i : Nat} {st : RStatus} (hr : r ∈ reqs) (hne : r.id ≠ i) :
    r ∈ setStatus reqs i st := by
  unfold setStatus
  refine List.mem_map.mpr ⟨r, hr, ?_⟩
  simp [hne]

theorem mem_setStatus_self {reqs : List FriendRequest} {fr : FriendRequest}
    {st : RStatus} (hfr : fr ∈ reqs) :
    { fr with status := st } ∈ setStatus reqs fr.id st := by
  unfold setStatus
  exact List.mem_map.mpr ⟨fr, hfr, by simp⟩

theorem mem_setStatus_elim {reqs : List FriendRequest} {i : Nat} {st : RStatus}
    {r' : FriendRequest} (h : r' ∈ setStatus reqs i st) :
    ∃ r ∈ reqs, r' = if r.id = i then { r with status := st } else r := by
  unfold setStatus at h
  obtain ⟨r, hr, heq⟩ := List.mem_map.mp h
  refine ⟨r, hr, ?_⟩
  by_cases hid : r.id = i
  · simp [hid] at heq ⊢
    exact heq.symm
  · simp [hid] at heq ⊢
    exact heq.symm

theorem filter_setStatus_accepted {reqs : List FriendRequest} {o a : Nat}
    {fr : FriendRequest}
    (hu : reqs.filter (matchesPending o a) = [fr]) :
    (setStatus reqs fr.id .accepted).filter (matchesPending o a) = [] := by
  rw [List.filter_eq_nil_iff]
  intro r' hr' hm
  obtain ⟨r, hr, heq⟩ := mem_setStatus_elim hr'
  by_cases hid : r.id = fr.id
  · rw [if_pos hid] at heq
    rw [heq] at hm
    simp [matchesPending] at hm
  · rw [if_neg hid] at heq
    subst heq
    have hmem : r' ∈ reqs.filter (matchesPending o a) :=
      List.mem_filter.mpr ⟨hr, hm⟩
    rw [hu, List.mem_singleton] at hmem
    exact hid (by rw [hmem])

/-! ### Frame lemmas: which store fields each operation can touch -/

theorem register_friends (s : AppState) (e n : List Char) :
    (register s e n).friends = s.friends := by
  unfold register; split <;> rfl

theorem register_requests (s : AppState) (e n : List Char) :
    (register s e n).requests = s.requests := by
  unfold register; split <;> rfl

theorem send_friends (s : AppState) (a : Nat) (i : SendInput) :
    ((send s a i).2).friends = s.friends := by
  unfold send
  cases validateSend s i <;> rfl

theorem reject_friends (s : AppState) (a o : Nat) :
    ((reject s a o).2).friends = s.friends := by
  unfold reject
  cases findPending s.requests o a <;> rfl

theorem accept_users (s : AppState) (a o : Nat) :
    ((accept s a o).2).users = s.users := by
  unfold accept
  cases findPending s.requests o a <;> rfl

/-! ### Reachability invariant -/

/-- The two relational invariants of §3 of the spec: the friends
relation is irreflexive and no request is a self-request. -/
def StateInv (s : AppState) : Prop :=
  (∀ p ∈ s.friends, p.1 ≠ p.2) ∧
  (∀ r ∈ s.requests, r.from_user ≠ r.to_user)

theorem stateInv_init : StateInv initState := by
  constructor <;> intro x hx <;> cases hx

theorem stateInv_applyOp {s : AppState} {op : Op}
    (hop : notSelfSend op = true) (h : StateInv s) :
    StateInv (applyOp s op) := by
  obtain ⟨hf, hq⟩ := h
  cases op with
  | register e n =>
      refine ⟨?_, ?_⟩
      · show ∀ p ∈ (register s e n).friends, p.1 ≠ p.2
        rw [register_friends]; exact hf
      · show ∀ r ∈ (register s e n).requests, r.from_user ≠ r.to_user
        rw [register_requests]; exact hq
  | send a i =>
      have hne : a ≠ i.to_user := by
        simp [notSelfSend] at hop
        exact hop
      refine ⟨?_, ?_⟩
      · show ∀ p ∈ ((send s a i).2).friends, p.1 ≠ p.2
        rw [send_friends]; exact hf
      · show ∀ r ∈ ((send s a i).2).requests, r.from_user ≠ r.to_user
        intro r hr
        simp only [send] at hr
        cases hval : validateSend s i with
        | none => rw [hval] at hr; exact hq r hr
        | some t =>
            have ht : t = i.to_user := by
              unfold validateSend at hval
              split at hval
              · exact (Option.some_inj.mp hval).symm
              · cases hval
            rw [hval] at hr
            simp only [List.mem_append, List.mem_singleton] at hr
            cases hr with
            | inl hmem => exact hq r hmem
            | inr heq => rw [heq]; simpa [ht] using hne
  | accept a o =>
      refine ⟨?_, ?_⟩
      · intro p hp
        simp only [applyOp, accept] at hp
        cases hfp : findPending s.requests o a with
        | none => rw [hfp] at hp; exact hf p hp
        | some fr =>
            rw [hfp] at hp
            obtain ⟨hfr_mem, hfr_m⟩ := findPending_some hfp
            obtain ⟨hfrom, hto, _⟩ := matchesPending_iff.mp hfr_m
            have hfa : fr.from_user ≠ a :=
              fun hc => hq fr hfr_mem (by rw [hc, hto])
            simp only [friendsAdd, List.mem_append, List.mem_cons,
              List.not_mem_nil, or_false] at hp
            rcases hp with hp | hp | hp
            · exact hf p hp
            · rw [hp]; exact fun hc => hfa hc.symm
            · rw [hp]; exact hfa
      · intro r hr
        simp only [applyOp, accept] at hr
        cases hfp : findPending s.requests o a with
        | none => rw [hfp] at hr; exact hq r hr
        | some fr =>
            rw [hfp] at hr
            obtain ⟨r₀, hr₀, heq⟩ := mem_setStatus_elim hr
            have h₀ := hq r₀ hr₀
            by_cases hid : r₀.id = fr.id
            · rw [if_pos hid] at heq
              rw [heq]; exact h₀
            · rw [if_neg hid] at heq
              rw [heq]; exact h₀
  | reject a o =>
      refine ⟨?_, ?_⟩
      · show ∀ p ∈ ((reject s a o).2).friends, p.1 ≠ p.2
        rw [reject_friends]; exact hf
      · intro r hr
        simp only [applyOp, reject] at hr
        cases hfp : findPending s.requests o a with
        | none => rw [hfp] at hr; exact hq r hr
        | some fr =>
            rw [hfp] at hr
            obtain ⟨r₀, hr₀, heq⟩ := mem_setStatus_elim hr
            have h₀ := hq r₀ hr₀
            by_cases hid : r₀.id = fr.id
            · rw [if_pos hid] at heq
              rw [heq]; exact h₀
            · rw [if_neg hid] at heq
              rw [heq]; exact h₀

theorem stateInv_runOps :
    ∀ (ops : List Op) (s : AppState), StateInv s →
      ops.all notSelfSend = true → StateInv (runOps s ops)
  | [], _, h, _ => h
  | op :: ops, s, h, hall => by
      simp only [List.all_cons, Bool.and_eq_true] at hall
      have hstep := stateInv_applyOp hall.1 h
      have := stateInv_runOps ops (applyOp s op) hstep hall.2
      simpa [runOps] using this

theorem mem_search_iff {s : AppState} {q : List Char} {aid : Nat}
    {u : User} :
    u ∈ search s q aid ↔
      u ∈ s.users ∧
        (lowerStr u.email = lowerStr q ∨ lowerStr q <:+: lowerStr u.name) ∧
        u.id ≠ aid := by
  simp [search, List.mem_filter, and_assoc]
  exact fun _ => and_comm

/-! ### The claims -/

/-- Claim C1: if the store contains a pending friend request from
`other` to `acting`, then `Accept(acting, other)` succeeds, the
looked-up request's status becomes `accepted`, and afterwards each of
the two users is a member of the other's friends relation. -/
theorem accept_establishes_friendship (s : AppState) (acting other : Nat)
    (r : FriendRequest) (hr : r ∈ s.requests) (hfrom : r.from_user = other)
    (hto : r.to_user = acting) (hst : r.status = .pending) :
    ∃ fr, findPending s.requests other acting = some fr ∧
      (accept s acting other).1 = .ok { fr with status := .accepted } ∧
      { fr with status := .accepted } ∈ ((accept s acting other).2).requests ∧
      isFriend ((accept s acting other).2) acting other = true ∧
      isFriend ((accept s acting other).2) other acting = true := by
  have hm : matchesPending other acting r = true :=
    matchesPending_iff.mpr ⟨hfrom, hto, hst⟩
  obtain ⟨fr, hfp⟩ := findPending_isSome_of_mem hr hm
  obtain ⟨hfr_mem, hfr_m⟩ := findPending_some hfp
  have hfr_from : fr.from_user = other := (matchesPending_iff.mp hfr_m).1
  refine ⟨fr, hfp, ?_, ?_, ?_, ?_⟩
  · simp [accept, hfp]
  · simp only [accept, hfp]
    exact mem_setStatus_self hfr_mem
  · simp [accept, hfp, isFriend, friendsAdd, hfr_from]
  · simp [accept, hfp, isFriend, friendsAdd, hfr_from]

/-- Claim C1 witness: in the demo store, user 1 accepting the pending
request from user 0 establishes the symmetric friendship. -/
theorem accept_establishes_friendship_witness :
    ∃ fr, findPending demoState.requests 0 1 = some fr ∧
      (accept demoState 1 0).1 = .ok { fr with status := .accepted } ∧
      { fr with status := .accepted } ∈ ((accept demoState 1 0).2).requests ∧
      isFriend ((accept demoState 1 0).2) 1 0 = true ∧
      isFriend ((accept demoState 1 0).2) 0 1 = true :=
  accept_establishes_friendship demoState 1 0 ⟨0, 0, 1, .pending⟩
    (by decide) rfl rfl rfl

/-- Claim C2 counterexample: the state reached by registering one user,
sending a friend request to oneself, and accepting it makes user 0 its
own friend — nothing in the code rejects self-requests. -/
theorem self_friend_reachable_cex :
    isFriend (runOps initState
        [.register ['a'] ['a'], .send 0 ⟨none, 0, none⟩, .accept 0 0])
      0 0 = true := by
  decide

/-- Claim C2 (amended): for every state reachable by a sequence of
Register, Send, Accept and Reject operations in which no user sends a
friend request to themself, no user is ever a member of its own
friends relation. -/
theorem no_self_friend_without_self_send (ops : List Op)
    (hops : ops.all notSelfSend = true) (u : Nat) :
    isFriend (runOps initState ops) u u = false := by
  have h := (stateInv_runOps ops initState stateInv_init hops).1
  cases hc : isFriend (runOps initState ops) u u with
  | false => rfl
  | true =>
      simp only [isFriend] at hc
      have hmem : (u, u) ∈ (runOps initState ops).friends := by
        simpa using hc
      exact absurd rfl (h (u, u) hmem)

/-- Claim C2 witness: after a register-send-accept run without
self-requests, user 1 is not its own friend. -/
theorem no_self_friend_without_self_send_witness :
    isFriend (runOps initState
        [.register ['a'] ['a'], .register ['b'] ['b'],
         .send 0 ⟨none, 1, none⟩, .accept 1 0]) 1 1 = false :=
  no_self_friend_without_self_send
    [.register ['a'] ['a'], .register ['b'] ['b'],
     .send 0 ⟨none, 1, none⟩, .accept 1 0]
    (by decide) 1

/-- Claim C3: when no pending friend request from `other` to `acting`
exists — also when a request exists but is accepted or rejected, or is
addressed to someone else — both Accept and Reject return the error
response and leave the whole store unchanged. -/
theorem invalid_request_no_state_change (s : AppState) (acting other : Nat)
    (h : ∀ r ∈ s.requests,
        ¬(r.from_user = other ∧ r.to_user = acting ∧ r.status = .pending)) :
    accept s acting other = (.error, s) ∧
      reject s acting other = (.error, s) := by
  have hn : findPending s.requests other acting = none := by
    rw [findPending_none]
    intro r hr
    cases hm : matchesPending other acting r with
    | false => rfl
    | true => exact absurd (matchesPending_iff.mp hm) (h r hr)
  exact ⟨by simp [accept, hn], by simp [reject, hn]⟩

/-- Claim C3 witness: on the store whose only request is already
accepted, Accept and Reject both fail and change nothing. -/
theorem invalid_request_no_state_change_witness :
    accept demoStateAccepted 1 0 = (.error, demoStateAccepted) ∧
      reject demoStateAccepted 1 0 = (.error, demoStateAccepted) :=
  invalid_request_no_state_change demoStateAccepted 1 0 (by decide)

/-- Claim C5 counterexample: a reachable state contains a friend
request whose sender equals its receiver — Send does not reject
self-requests. -/
theorem self_request_reachable_cex :
    ∃ r ∈ (runOps initState
        [.register ['a'] ['a'], .send 0 ⟨none, 0, none⟩]).requests,
      r.from_user = r.to_user := by
  decide

/-- Claim C5 (amended): in every state reachable by a sequence of
operations in which no user sends a friend request to themself, every
friend request satisfies `from_user ≠ to_user`. -/
theorem no_self_request_without_self_send (ops : List Op)
    (hops : ops.all notSelfSend = true) :
    ∀ r ∈ (runOps initState ops).requests, r.from_user ≠ r.to_user :=
  (stateInv_runOps ops initState stateInv_init hops).2

/-- Claim C5 witness: the request created by a non-self send in a
concrete run has distinct sender and receiver. -/
theorem no_self_request_without_self_send_witness :
    (⟨0, 0, 1, RStatus.pending⟩ : FriendRequest).from_user ≠
      (⟨0, 0, 1, RStatus.pending⟩ : FriendRequest).to_user :=
  no_self_request_without_self_send
    [.register ['a'] ['a'], .register ['b'] ['b'], .send 0 ⟨none, 1, none⟩]
    (by decide) ⟨0, 0, 1, RStatus.pending⟩ (by decide)

/-- Claim C6: if the store contains a pending friend request from
`other` to `acting`, then `Reject(acting, other)` succeeds, the
looked-up request's status becomes `rejected`, and the friends
relation — hence every `isFriend` observation — is unchanged. -/
theorem reject_no_relation_change (s : AppState) (acting other : Nat)
    (r : FriendRequest) (hr : r ∈ s.requests) (hfrom : r.from_user = other)
    (hto : r.to_user = acting) (hst : r.status = .pending) :
    ∃ fr, findPending s.requests other acting = some fr ∧
      (reject s acting other).1 = .ok { fr with status := .rejected } ∧
      { fr with status := .rejected } ∈ ((reject s acting other).2).requests ∧
      ((reject s acting other).2).friends = s.friends ∧
      (∀ x y, isFriend ((reject s acting other).2) x y = isFriend s x y) := by
  have hm : matchesPending other acting r = true :=
    matchesPending_iff.mpr ⟨hfrom, hto, hst⟩
  obtain ⟨fr, hfp⟩ := findPending_isSome_of_mem hr hm
  obtain ⟨hfr_mem, _⟩ := findPending_some hfp
  refine ⟨fr, hfp, ?_, ?_, reject_friends s acting other, ?_⟩
  · simp [reject, hfp]
  · simp only [reject, hfp]
    exact mem_setStatus_self hfr_mem
  · intro x y
    simp only [isFriend, reject_friends]

/-- Claim C6 witness: user 1 rejecting the pending request from user 0
in the demo store marks it rejected and leaves the (empty) friends
relation empty, so neither user is in the other's friend list. -/
theorem reject_no_relation_change_witness :
    ∃ fr, findPending demoState.requests 0 1 = some fr ∧
      (reject demoState 1 0).1 = .ok { fr with status := .rejected } ∧
      { fr with status := .rejected } ∈ ((reject demoState 1 0).2).requests ∧
      ((reject demoState 1 0).2).friends = demoState.friends ∧
      (∀ x y, isFriend ((reject demoState 1 0).2) x y =
        isFriend demoState x y) :=
  reject_no_relation_change demoState 1 0 ⟨0, 0, 1, .pending⟩
    (by decide) rfl rfl rfl

/-- Claim C4 counterexample: after a reachable state with two pending
requests from user 0 to user 1 and one successful Accept, a second
`Accept(1, 0)` does not fail — it succeeds on the other duplicate, so
"a second Accept of the same pair fails with NotFound" is false. -/
theorem second_accept_succeeds_cex :
    (accept (runOps initState
        [.register ['a'] ['a'], .register ['b'] ['b'],
         .send 0 ⟨none, 1, none⟩, .send 0 ⟨none, 1, none⟩,
         .accept 1 0]) 1 0).1 =
      .ok { id := 1, from_user := 0, to_user := 1, status := .accepted } := by
  decide

/-- Claim C4 (amended): a request that is no longer pending is never
mutated again by any Accept or Reject; and after a successful Accept,
provided the accepted request was the only pending request of that
(sender, receiver) pair, a second Accept fails with the error response
and leaves the state — the accepted status included — unchanged. -/
theorem terminal_status_stable (s : AppState) (acting other : Nat)
    (hnd : (s.requests.map FriendRequest.id).Nodup) :
    (∀ r ∈ s.requests, r.status ≠ .pending →
        r ∈ ((accept s acting other).2).requests ∧
        r ∈ ((reject s acting other).2).requests) ∧
    (∀ fr, s.requests.filter (matchesPending other acting) = [fr] →
        (accept ((accept s acting other).2) acting other).1 = .error ∧
        (accept ((accept s acting other).2) acting other).2 =
          (accept s acting other).2 ∧
        { fr with status := .accepted } ∈
          ((accept s acting other).2).requests) := by
  constructor
  · intro r hr hst
    constructor
    · cases hfp : findPending s.requests other acting with
      | none => simp only [accept, hfp]; exact hr
      | some fr =>
          simp only [accept, hfp]
          obtain ⟨hfr_mem, hfr_m⟩ := findPending_some hfp
          have hpend : fr.status = .pending :=
            (matchesPending_iff.mp hfr_m).2.2
          have hne : r ≠ fr := fun hc => hst (by rw [hc]; exact hpend)
          exact mem_setStatus_of_ne hr
            (fun hidc => hne (List.inj_on_of_nodup_map hnd hr hfr_mem hidc))
    · cases hfp : findPending s.requests other acting with
      | none => simp only [reject, hfp]; exact hr
      | some fr =>
          simp only [reject, hfp]
          obtain ⟨hfr_mem, hfr_m⟩ := findPending_some hfp
          have hpend : fr.status = .pending :=
            (matchesPending_iff.mp hfr_m).2.2
          have hne : r ≠ fr := fun hc => hst (by rw [hc]; exact hpend)
          exact mem_setStatus_of_ne hr
            (fun hidc => hne (List.inj_on_of_nodup_map hnd hr hfr_mem hidc))
  · intro fr hu
    have hfp : findPending s.requests other acting = some fr := by
      simp [findPending, hu]
    have hmem_fr : fr ∈ s.requests := by
      have hm : fr ∈ s.requests.filter (matchesPending other acting) := by
        rw [hu]; exact List.mem_cons_self _ _
      exact (List.mem_filter.mp hm).1
    have hreq2 : ((accept s acting other).2).requests =
        setStatus s.requests fr.id .accepted := by
      simp [accept, hfp]
    have hfil2 : (((accept s acting other).2).requests).filter
        (matchesPending other acting) = [] := by
      rw [hreq2]; exact filter_setStatus_accepted hu
    have hfp2 : findPending ((accept s acting other).2).requests
        other acting = none := by
      simp only [findPending, hfil2, List.head?_nil]
    refine ⟨?_, ?_, ?_⟩
    · generalize (accept s acting other).2 = s1 at hfp2 ⊢
      simp [accept, hfp2]
    · generalize (accept s acting other).2 = s1 at hfp2 ⊢
      simp [accept, hfp2]
    · rw [hreq2]; exact mem_setStatus_self hmem_fr

/-- Claim C4 witness: in the demo store, whose single request is the
only pending one of the pair, a second Accept fails. -/
theorem terminal_status_stable_witness :
    (accept ((accept demoState 1 0).2) 1 0).1 = .error :=
  ((terminal_status_stable demoState 1 0 (by decide)).2
    ⟨0, 0, 1, .pending⟩ (by decide)).1

/-- Claim C7 counterexample: with query "a" and requesting user 1, the
user with email "x" and name "A" is returned by search, although "a"
is not a substring of the name "A" and the email does not match the
query even case-insensitively: the code's `name__icontains` comparison
is case-insensitive, so the result set is larger than "users whose
name contains the query as a substring". -/
theorem search_case_insensitive_name_cex :
    (⟨0, ['x'], ['A']⟩ : User) ∈ search cexSearchState ['a'] 1 ∧
      ¬(['a'] <:+: (⟨0, ['x'], ['A']⟩ : User).name) ∧
      lowerStr (⟨0, ['x'], ['A']⟩ : User).email ≠ lowerStr ['a'] := by
  decide

/-- Claim C7 (amended): search returns exactly the users whose email
equals the query case-insensitively or whose name contains the query
case-insensitively as a substring, always excluding the requesting
user — even when the query matches the requesting user's own email or
name. -/
theorem search_membership_characterization (s : AppState) (q : List Char)
    (actingId : Nat) (u : User) :
    u ∈ search s q actingId ↔
      u ∈ s.users ∧
        (lowerStr u.email = lowerStr q ∨ lowerStr q <:+: lowerStr u.name) ∧
        u.id ≠ actingId :=
  mem_search_iff

/-- Claim C7 witness: the characterization applied to a concrete store
and query. -/
theorem search_membership_characterization_witness :
    (⟨0, ['x'], ['A']⟩ : User) ∈ search cexSearchState ['a'] 1 :=
  (search_membership_characterization cexSearchState ['a'] 1
    ⟨0, ['x'], ['A']⟩).mpr (by decide)

/-- Claim C8: when the pending requests from `other` to `acting` are
matched, Accept and Reject each transition exactly the first match in
store order: the first match is returned and transitioned, and every
other request record — in particular every other pending request from
the same sender — is still present unchanged. -/
theorem first_pending_transitioned_only (s : AppState) (acting other : Nat)
    (fr : FriendRequest) (rest : List FriendRequest)
    (hnd : (s.requests.map FriendRequest.id).Nodup)
    (hfil : s.requests.filter (matchesPending other acting) = fr :: rest) :
    (accept s acting other).1 = .ok { fr with status := .accepted } ∧
    { fr with status := .accepted } ∈ ((accept s acting other).2).requests ∧
    (∀ r ∈ s.requests, r ≠ fr → r ∈ ((accept s acting other).2).requests) ∧
    (reject s acting other).1 = .ok { fr with status := .rejected } ∧
    { fr with status := .rejected } ∈ ((reject s acting other).2).requests ∧
    (∀ r ∈ s.requests, r ≠ fr → r ∈ ((reject s acting other).2).requests) := by
  have hfp : findPending s.requests other acting = some fr := by
    simp [findPending, hfil]
  have hmem_fr : fr ∈ s.requests := by
    have hm : fr ∈ s.requests.filter (matchesPending other acting) := by
      rw [hfil]; exact List.mem_cons_self _ _
    exact (List.mem_filter.mp hm).1
  refine ⟨?_, ?_, ?_, ?_, ?_, ?_⟩
  · simp [accept, hfp]
  · simp only [accept, hfp]; exact mem_setStatus_self hmem_fr
  · intro r hr hne
    simp only [accept, hfp]
    exact mem_setStatus_of_ne hr
      (fun hidc => hne (List.inj_on_of_nodup_map hnd hr hmem_fr hidc))
  · simp [reject, hfp]
  · simp only [reject, hfp]; exact mem_setStatus_self hmem_fr
  · intro r hr hne
    simp only [reject, hfp]
    exact mem_setStatus_of_ne hr
      (fun hidc => hne (List.inj_on_of_nodup_map hnd hr hmem_fr hidc))

/-- Claim C8 witness: on the store with two duplicate pending requests,
Accept transitions the first one in store order. -/
theorem first_pending_transitioned_only_witness :
    (accept demoStateDup 1 0).1 =
      .ok { id := 0, from_user := 0, to_user := 1, status := .accepted } :=
  (first_pending_transitioned_only demoStateDup 1 0
    ⟨0, 0, 1, .pending⟩ [⟨1, 0, 1, .pending⟩] (by decide) (by decide)).1

/-- Claim C9: whatever `from_user` or `status` value the client
supplies, a successfully created friend request has `from_user` equal
to the authenticated acting user and status `pending`: the serializer
marks both fields read-only and the view saves with
`from_user=self.request.user`. -/
theorem send_forces_sender_and_pending (s : AppState) (acting : Nat)
    (inp : SendInput) (fr : FriendRequest)
    (h : (send s acting inp).1 = .ok fr) :
    fr.from_user = acting ∧ fr.status = .pending ∧
      fr ∈ ((send s acting inp).2).requests := by
  cases hval : validateSend s inp with
  | none =>
      rw [send, hval] at h
      cases h
  | some t =>
      rw [send, hval] at h
      simp only [ApiResult.ok.injEq] at h
      rw [send, hval]
      refine ⟨?_, ?_, ?_⟩
      · rw [← h]
      · rw [← h]
      · rw [← h]; simp

/-- Claim C9 witness: sending with a forged `from_user = 99` and a
forged `status = accepted` still creates a pending request from the
acting user 1. -/
theorem send_forces_sender_and_pending_witness :
    (⟨1, 1, 0, RStatus.pending⟩ : FriendRequest).from_user = 1 ∧
      (⟨1, 1, 0, RStatus.pending⟩ : FriendRequest).status = .pending ∧
      (⟨1, 1, 0, RStatus.pending⟩ : FriendRequest) ∈
        ((send demoState 1 ⟨some 99, 0, some .accepted⟩).2).requests :=
  send_forces_sender_and_pending demoState 1 ⟨some 99, 0, some .accepted⟩
    ⟨1, 1, 0, RStatus.pending⟩ (by decide)

/-- Claim C10: for the empty query string, search returns every stored
user other than the requesting one (the empty string is a substring of
every name), and the result is nonempty whenever some other user
exists. -/
theorem search_empty_query_returns_all_others (s : AppState)
    (actingId : Nat) :
    (∀ u, u ∈ search s [] actingId ↔ u ∈ s.users ∧ u.id ≠ actingId) ∧
    ((∃ u ∈ s.users, u.id ≠ actingId) → search s [] actingId ≠ []) := by
  have hchar : ∀ u : User,
      u ∈ search s [] actingId ↔ u ∈ s.users ∧ u.id ≠ actingId := by
    intro u
    rw [mem_search_iff]
    constructor
    · rintro ⟨h1, _, h3⟩
      exact ⟨h1, h3⟩
    · rintro ⟨h1, h3⟩
      exact ⟨h1, Or.inr ⟨[], lowerStr u.name, rfl⟩, h3⟩
  refine ⟨hchar, ?_⟩
  rintro ⟨u, hu, hne⟩
  exact List.ne_nil_of_mem ((hchar u).mpr ⟨hu, hne⟩)

/-- Claim C10 witness: on the demo store, the empty query searched by
user 1 returns a nonempty result (user 0 exists). -/
theorem search_empty_query_returns_all_others_witness :
    search demoState [] 1 ≠ [] :=
  (search_empty_query_returns_all_others demoState 1).2
    ⟨⟨0, ['a'], ['a']⟩, by decide, by decide⟩

end FollowerAPI
